import Mathlib

/-! Verification of the deer-flow workflow core (src/src/graph/nodes.py).

This file is a shallow embedding, in Lean 4, of the context-window
management, step-execution and state-machine routing logic of
`src/src/graph/nodes.py`, together with theorems settling the frozen
claims about that code.

Modelling conventions:
* Python strings are Lean `String`s; all character-level operations are
  defined here on `String.data` (a `List Char`), so every definition is
  executable and reduces in the kernel.  Python `len`, slicing `[:n]`,
  `.lower()`, `.upper()`, `.count(sub)` and `in` (substring test) are
  modelled by `strLen`, `strTake`, `strLower`, `strUpper`, `countSub`
  and `hasSub`.  `.lower()`/`.upper()` are modelled per character on
  ASCII letters, which agrees with Python on every string appearing in
  the comparisons made by the code.
* Python float arithmetic (`int(x * 0.7)`, `int(x * 0.6)`,
  `y > x * 0.8`, `int(len / 1.5)`, `0.8 ** k`) is modelled by exact
  rational arithmetic on `Nat` (`x * 7 / 10`, `x * 6 / 10`,
  `10 * y > 8 * x`, `2 * len / 3`, `len * 8 ^ k / 10 ^ k`).  For the
  IEEE doubles involved these agree on all inputs of realistic size
  (the float error is ~1e-16 relative, the nearest discontinuity of the
  truncation is at distance >= 1/25).
* Python `dict` messages are records with the fields the code reads
  (`content`, `role`, `name`, `type`); a missing key read through
  `.get(k, "")` is modelled by the field holding `""`.
* Machine integers do not overflow here (all quantities are
  nonnegative counts), so `Nat` is used throughout.
-/

set_option maxRecDepth 4000

/-! ## Character / string primitives -/

/-- ASCII lower-casing of one character (models Python `str.lower` on the
ASCII letters, the only cased characters this code compares). -/
def charLower (c : Char) : Char :=
  if 65 ≤ c.toNat && c.toNat ≤ 90 then Char.ofNat (c.toNat + 32) else c

/-- ASCII upper-casing of one character (models Python `str.upper`). -/
def charUpper (c : Char) : Char :=
  if 97 ≤ c.toNat && c.toNat ≤ 122 then Char.ofNat (c.toNat - 32) else c

/-- Number of characters of a Python string (`len(s)`). -/
def strLen (s : String) : Nat := s.data.length

/-- Python `s[:n]` (first `n` characters). -/
def strTake (s : String) (n : Nat) : String := String.mk (s.data.take n)

/-- Python `s.lower()`. -/
def strLower (s : String) : String := String.mk (s.data.map charLower)

/-- Python `s.upper()`. -/
def strUpper (s : String) : String := String.mk (s.data.map charUpper)

/-- Python truthiness of a string (`bool(s)` is `False` iff `s == ""`). -/
def strIsEmpty (s : String) : Bool := s.data.isEmpty

/-- Does `l` start with `pat`? -/
def leadMatch : List Char → List Char → Bool
  | [], _ => true
  | _ :: _, [] => false
  | p :: ps, c :: cs => p == c && leadMatch ps cs

/-- Python `s.startswith(pat)`. -/
def strStartsWith (s pat : String) : Bool := leadMatch pat.data s.data

/-- Fuel-driven scan for `countSub`; the fuel is the length of the text, so
it never runs out (each step consumes at least one character). -/
def countSubAux (sub : List Char) : Nat → List Char → Nat
  | 0, _ => 0
  | _, [] => 0
  | fuel + 1, c :: cs =>
    if leadMatch sub (c :: cs) && !sub.isEmpty then
      countSubAux sub fuel (List.drop (sub.length - 1) cs) + 1
    else
      countSubAux sub fuel cs

/-- Python `text.count(sub)`: number of non-overlapping occurrences of
`sub`, scanning left to right.  (Only called with non-empty `sub`.) -/
def countSub (sub text : List Char) : Nat := countSubAux sub text.length text

/-- Python `pat in s` (substring test), for non-empty `pat`. -/
def hasSub (pat s : String) : Bool := countSub pat.data s.data > 0

/-- Python `str.join` for a separator (models `sep.join(parts)`). -/
def joinSep (sep : String) : List String → String
  | [] => ""
  | [x] => x
  | x :: y :: rest => x ++ sep ++ joinSep sep (y :: rest)

/-! ## Token estimator (`estimate_tokens`, nodes.py lines 98-122) -/

/-- Is `c` in the CJK range tested by the source
(`"一" <= char <= "鿿"`)? -/
def isCJK (c : Char) : Bool := 0x4e00 ≤ c.toNat && c.toNat ≤ 0x9fff

/-- Models `chinese_chars` of `estimate_tokens`: the number of CJK characters. -/
def chineseCount (text : String) : Nat := (text.data.filter isCJK).length

/-- Models `has_code` of `estimate_tokens`: a code fence occurs, or the keywords
`"def "` / `"class "` occur. -/
def textHasCode (text : String) : Bool :=
  countSub ("```").data text.data > 0
    || countSub ("def ").data text.data > 0
    || countSub ("class ").data text.data > 0

/-- The `chinese_chars > english_chars` test of `estimate_tokens`, where
`english_chars = len(text) - chinese_chars`. -/
def textCJKDominant (text : String) : Bool :=
  strLen text - chineseCount text < chineseCount text

/-- Models `estimate_tokens(text)` (nodes.py lines 98-122).  `int(len(text)/1.5)`
equals `2 * len / 3` exactly for every realistic length. -/
def estimate_tokens (text : String) : Nat :=
  if strIsEmpty text then 0
  else if textHasCode text then strLen text / 3
  else if textCJKDominant text then 2 * strLen text / 3
  else strLen text / 4

/-! ## Context window manager (`truncate_context`, nodes.py lines 125-214)

Messages are Python dicts; the code reads `content`, `role`, `name` (via
`.get(k, "")`) and, in the step executor, writes a `type` key.  They are
modelled as records with those four fields. -/

structure CMsg where
  content : String
  role : String
  name : String
  mtype : String
deriving DecidableEq, Repr

/-- Models `sum(estimate_tokens(str(msg.get("content",""))) for msg in messages)`. -/
def totalTokens (messages : List CMsg) : Nat :=
  (messages.map (fun m => estimate_tokens m.content)).sum

/-- The literal truncation marker appended by `add_messages_if_fits`. -/
def truncMarker : String := "\n\n[內容已截斷...]"

/-- Models `MAX_CONTEXT_TOKENS` with the default environment value `"128000"`
(nodes.py line 94). -/
def MAX_CONTEXT_TOKENS : Nat := 128000

/-- Classification of one message as a system message
(`role == "system" or "system" in name.lower()`). -/
def isSystemMsg (m : CMsg) : Bool :=
  m.role == "system" || hasSub ("system") (strLower m.name)

/-- The task keyword list of `truncate_context`. -/
def taskKeywords : List String := ["current task", "當前任務", "title", "description"]

/-- Classification of one message as task-identifying
(`any(keyword in content.lower() for keyword in ...)`). -/
def isTaskMsg (m : CMsg) : Bool :=
  taskKeywords.any (fun k => hasSub k (strLower m.content))

/-- The first classification pass of `truncate_context` (lines 155-173):
partition into (system, task, other), each in input order. -/
def classifyMsgs : List CMsg → List CMsg × List CMsg × List CMsg
  | [] => ([], [], [])
  | m :: ms =>
    let r := classifyMsgs ms
    if isSystemMsg m then (m :: r.1, r.2.1, r.2.2)
    else if isTaskMsg m then (r.1, m :: r.2.1, r.2.2)
    else (r.1, r.2.1, m :: r.2.2)

/-- The per-message step of `add_messages_if_fits` (lines 179-187): the
cost of the message, after the single-message truncation applied when the cost
exceeds 80% of the remaining sub-budget (`msg_tokens > remaining * 0.8`,
modelled exactly as `10 * t > 8 * remaining`; `int(len * 0.6)` modelled as
`len * 6 / 10`). -/
def fitMsg (rem : Nat) (m : CMsg) : Nat × CMsg :=
  let t := estimate_tokens m.content
  if 10 * t > 8 * rem then
    let tc := strTake m.content (strLen m.content * 6 / 10) ++ truncMarker
    (estimate_tokens tc, { m with content := tc })
  else (t, m)

/-- Models `add_messages_if_fits(msg_list, max_tokens_remaining)` (lines 176-193),
with the nonlocal accumulators `current_tokens` / `truncated_messages`
threaded explicitly.  The `break` stops the whole scan. -/
def addMessagesIfFits (rem : Nat) : List CMsg → Nat → List CMsg → Nat × List CMsg
  | [], cur, acc => (cur, acc)
  | m :: ms, cur, acc =>
    if cur + (fitMsg rem m).1 ≤ rem then
      addMessagesIfFits rem ms (cur + (fitMsg rem m).1) (acc ++ [(fitMsg rem m).2])
    else (cur, acc)

/-- Models `messages.index(x) if x in messages else len(messages)`: the first
index of `x` in `l`, or `l.length` when absent. -/
def firstIdxFrom : List CMsg → CMsg → Nat
  | [], _ => 0
  | y :: ys, x => if y = x then 0 else firstIdxFrom ys x + 1

/-- The sort key of the final reordering (line 207). -/
def msgSortKey (messages : List CMsg) (x : CMsg) : Nat := firstIdxFrom messages x

/-- Stable insertion for `stableSortByKey`: `a` is placed after every
element whose key is `≤` its own. -/
def insertStable (k : CMsg → Nat) (a : CMsg) : List CMsg → List CMsg
  | [] => [a]
  | b :: bs => if k a < k b then a :: b :: bs else b :: insertStable k a bs

/-- Left-to-right stable insertion sort, processing `l` in order into the
sorted accumulator. -/
def stableSortAux (k : CMsg → Nat) : List CMsg → List CMsg → List CMsg
  | [], acc => acc
  | a :: as, acc => stableSortAux k as (insertStable k a acc)

/-- Python `list.sort(key=k)`: a stable ascending sort by `k`. -/
def stableSortByKey (k : CMsg → Nat) (l : List CMsg) : List CMsg :=
  stableSortAux k l []

/-- The three priority-ordered filling passes of `truncate_context`
(lines 195-204), starting from the empty accumulator; returns the final
`(current_tokens, truncated_messages)`. -/
def truncateCore (messages : List CMsg) (target_tokens : Nat) : Nat × List CMsg :=
  let cls := classifyMsgs messages
  let r1 := addMessagesIfFits target_tokens cls.1 0 []
  let r2 := addMessagesIfFits (target_tokens - r1.1) cls.2.1 r1.1 r1.2
  addMessagesIfFits (target_tokens - r2.1) cls.2.2.reverse r2.1 r2.2

/-- Models `truncate_context(messages, max_tokens)` (nodes.py lines 125-214).
`target_tokens = int(max_tokens * TRUNCATION_RATIO)` with the default
ratio 0.7 is modelled exactly as `max_tokens * 7 / 10`. -/
def truncate_context (messages : List CMsg) (max_tokens : Nat) : List CMsg :=
  if messages.isEmpty then messages
  else if totalTokens messages ≤ max_tokens then messages
  else stableSortByKey (msgSortKey messages) (truncateCore messages (max_tokens * 7 / 10)).2

/-! ## Data model (plan, messages, state)

`Plan` / `PlanStep` live in `src/prompts/planner_model.py`, which is not
among the provided source files; their fields are those read by nodes.py
and listed in the data model of the spec. -/

/-- LangChain-style state message: the code reads `.content`, an optional
`name` tag, and the message kind (`HumanMessage` = "human",
`AIMessage` = "ai"). -/
structure HMsg where
  content : String
  name : Option String
  mtype : String
deriving DecidableEq, Repr

/-- Modelled from the spec: `PlanStep` — `title`, `description`,
`execution_res` (nullable text, set once the step completes). -/
structure PlanStep where
  title : String
  description : String
  execution_res : Option String
deriving DecidableEq, Repr

/-- Modelled from the spec: `Plan` — `title`, `thought`,
`has_enough_context`, `locale`, ordered sequence of `PlanStep`. -/
structure Plan where
  title : String
  thought : String
  locale : String
  has_enough_context : Bool
  steps : List PlanStep
deriving DecidableEq, Repr

/-- A resource handle (`resource.title` / `resource.description` are the
fields read by `_execute_agent_step`). -/
structure Resource where
  title : String
  description : String
deriving DecidableEq, Repr

/-- The slice of the workflow state read and written by
`_execute_agent_step`: `messages`, `observations`, `current_plan`,
`locale` (with its `"en-US"` default already applied), `resources`. -/
structure ExecState where
  messages : List HMsg
  observations : List String
  current_plan : Plan
  locale : String
  resources : List Resource
deriving DecidableEq, Repr

/-! ## Step executor (`_execute_agent_step`, nodes.py lines 501-768) -/

/-- Python truthiness of `step.execution_res` (`None` and `""` are falsy):
the step counts as unexecuted. -/
def resFalsy : Option String → Bool
  | none => true
  | some s => strIsEmpty s

/-- The step-claiming loop (lines 512-517): the first step whose
`execution_res` is falsy, with its index. -/
def firstUnexecuted : List PlanStep → Option (Nat × PlanStep)
  | [] => none
  | s :: rest =>
    if resFalsy s.execution_res then some (0, s)
    else (firstUnexecuted rest).map (fun p => (p.1 + 1, p.2))

/-- Python `f"{o}"` on an optional string (`None` prints as `"None"`). -/
def pyOptStr : Option String → String
  | some s => s
  | none => "None"

/-- One `## Existing Finding i+1: ...` block of `completed_steps_info`. -/
def findingBlock (p : Nat × PlanStep) : String :=
  "## Existing Finding " ++ Nat.repr (p.1 + 1) ++ ": " ++ p.2.title
    ++ "\n\n<finding>\n" ++ pyOptStr p.2.execution_res ++ "\n</finding>\n\n"

/-- Models `completed_steps_info` (lines 527-533). -/
def completedStepsInfo (completed : List PlanStep) : String :=
  if completed.isEmpty then ("")
  else ("# Existing Research Findings\n\n") ++ String.join (completed.enum.map findingBlock)

/-- Models `current_task_content` (line 558): the synthesized task message. -/
def currentTaskContent (st : ExecState) (cur : PlanStep) : String :=
  "# Current Task\n\n## Title\n\n" ++ cur.title ++ "\n\n## Description\n\n"
    ++ cur.description ++ "\n\n## Locale\n\n" ++ st.locale

/-- The conversion of one recent state message into a context part
(lines 563-573).  LangChain messages have `.content` but no `.role`
attribute, so `getattr(msg, "role", "user")` yields `"user"`. -/
def stateMsgPart (m : HMsg) : CMsg := ⟨m.content, "user", "", "state_message"⟩

/-- The joined observation text (lines 577-580):
`"\n\n".join(f"觀察 {i+1}: {obs}" ...)` over the recent observations. -/
def obsJoined (recent : List String) : String :=
  joinSep ("\n\n") (recent.enum.map (fun p => "觀察 " ++ Nat.repr (p.1 + 1) ++ ": " ++ p.2))

/-- Models `context_parts` assembly (lines 548-582): completed-steps part, the
current-task part, at most the 5 most recent state messages, and one part
holding at most the 3 most recent observations. -/
def buildContextParts (st : ExecState) (cur : PlanStep) (completedInfo : String) : List CMsg :=
  (if strIsEmpty completedInfo then [] else [⟨completedInfo, "system", "", "completed_steps"⟩])
    ++ [⟨currentTaskContent st cur, "user", "", "current_task"⟩]
    ++ (st.messages.drop (st.messages.length - 5)).map stateMsgPart
    ++ (if st.observations.isEmpty then []
        else if strIsEmpty (obsJoined (st.observations.drop (st.observations.length - 3))) then []
        else [⟨obsJoined (st.observations.drop (st.observations.length - 3)), "system", "",
               "observations"⟩])

/-- Rebuilding `agent_input["messages"]` from the truncated context
(lines 588-619): the current-task part (or a minimal fallback) becomes the
primary message; retained completed-steps/observations contents are
prefixed onto it. -/
def rebuildAgentInput (truncated : List CMsg) (cur : PlanStep) (original : List HMsg) :
    List HMsg :=
  if truncated.isEmpty then original
  else
    let base : List HMsg :=
      match truncated.find? (fun m => m.mtype == "current_task") with
      | some m => [⟨m.content, none, "human"⟩]
      | none => [⟨"任務: " ++ cur.title ++ "\n描述: " ++ cur.description, none, "human"⟩]
    let additional :=
      (truncated.filter (fun m =>
        (m.mtype == "completed_steps" || m.mtype == "observations")
          && !strIsEmpty m.content)).map (fun m => m.content)
    if additional.isEmpty then base
    else
      let summary := joinSep ("\n\n") additional
      if strIsEmpty summary then base
      else
        match base with
        | [] => []
        | m :: rest => ⟨summary ++ "\n\n" ++ m.content, none, "human"⟩ :: rest

/-- Models `resources_info` for the researcher agent (lines 623-626). -/
def resourcesInfo (rs : List Resource) : String :=
  "**The user mentioned the following resource files:**\n\n"
    ++ String.join (rs.map (fun r => "- " ++ r.title ++ " (" ++ r.description ++ ")\n"))

/-- The fixed citation reminder appended for the researcher (line 638). -/
def citationReminder : String :=
  "IMPORTANT: DO NOT include inline citations in the text. Instead, track all sources and include a References section at the end using numbered format. Include an empty line between each citation for better readability. Use this format for each reference:\n[1](URL) - Source Title\n\n[2](URL) - Another Source Title"

/-- The two messages appended to the input when `agent_name == "researcher"`
(lines 622-641). -/
def researcherExtras (st : ExecState) : List HMsg :=
  (if st.resources.isEmpty then []
   else [⟨resourcesInfo st.resources ++ "\n\n"
            ++ "You MUST use the **local_search_tool** to retrieve the information from the resource files.",
          none, "human"⟩])
    ++ [⟨citationReminder, some ("system"), "human"⟩]

/-- The whole input-payload assembly of `_execute_agent_step` before the
retry loop (lines 527-641): original payload, context parts, context
truncation at `MAX_CONTEXT_TOKENS`, rebuild, researcher extras. -/
def assembleAgentInput (st : ExecState) (cur : PlanStep) (completed : List PlanStep)
    (agent_name : String) : List HMsg :=
  let info := completedStepsInfo completed
  let original : List HMsg := [⟨info ++ currentTaskContent st cur, none, "human"⟩]
  let truncated := truncate_context (buildContextParts st cur info) MAX_CONTEXT_TOKENS
  let base := rebuildAgentInput truncated cur original
  if agent_name == "researcher" then base ++ researcherExtras st else base

/-- The context-overflow test on a raised error (line 687):
`"context_length_exceeded" in str(e).lower() or "maximum context length" in str(e).lower()`. -/
def isContextError (e : String) : Bool :=
  hasSub ("context_length_exceeded") (strLower e) || hasSub ("maximum context length") (strLower e)

/-- The escalating shrink of the primary message on retry `rc`
(lines 694-709): `int(len * 0.8 ** rc)` is modelled exactly as
`len * 8 ^ rc / 10 ^ rc`, floored at 1000 characters; a marker recording
the original length is appended when the content actually shrank. -/
def shrinkInput (input : List HMsg) (rc : Nat) : List HMsg :=
  match input with
  | [] => []
  | m :: rest =>
    let len := strLen m.content
    let ml0 := len * 8 ^ rc / 10 ^ rc
    let ml := if ml0 < 1000 then 1000 else ml0
    let tc := strTake m.content ml
    let tc2 := if ml < len then
        tc ++ "\n\n[內容已截斷，原長度: " ++ Nat.repr len ++ " 字符]"
      else tc
    ⟨tc2, none, "human"⟩ :: rest

/-- The minimal payload submitted on the final attempt (lines 712-715):
step title plus the first 200 characters of its description. -/
def minimalMsg (step : PlanStep) : HMsg :=
  ⟨"任務: " ++ step.title ++ "\n簡要描述: " ++ strTake step.description 200 ++ "...", none,
   "human"⟩

/-- A single-quote character, to spell the mock message without a literal
apostrophe. -/
def sqChar : String := String.singleton (Char.ofNat 39)

/-- The synthesized placeholder produced when even the minimal attempt
fails (lines 737-743). -/
def mockContent (title : String) : String :=
  "抱歉，由於上下文長度限制，無法完成任務 " ++ sqChar ++ title ++ sqChar
    ++ "。請考慮：\n1. 使用支援更大上下文的模型\n2. 減少研究步驟數量\n3. 調整 MAX_CONTEXT_TOKENS 環境變數"

/-- The retry loop body (lines 669-747), fuel-indexed so that it reduces
structurally; the agent collaborator is a function from the message
payload to either a final response text or a raised error string.  The
Python `while retry_count < max_retries` runs at most 3 iterations, so
fuel 3 is never exhausted when entered at `retry_count = 0`; the two
`.error` fallbacks below model the (unreachable) exit of the loop with
`result` unbound. -/
def retryGo (agent : List HMsg → Except String String) (step : PlanStep) :
    Nat → List HMsg → Nat → Except String String
  | 0, _, _ => .error ("unreachable: loop fuel exhausted")
  | fuel + 1, input, retry_count =>
    if retry_count < 3 then
      match agent input with
      | .ok r => .ok r
      | .error e =>
        if isContextError e then
          if retry_count + 1 < 3 then
            retryGo agent step fuel (shrinkInput input (retry_count + 1)) (retry_count + 1)
          else
            match agent [minimalMsg step] with
            | .ok r => .ok r
            | .error _ => .ok (mockContent step.title)
        else .error e
    else .error ("unreachable: loop exited with result unbound")

/-- The retry loop, entered with `retry_count = 0`. -/
def retryLoop (agent : List HMsg → Except String String) (step : PlanStep)
    (input : List HMsg) : Except String String :=
  retryGo agent step 3 input 0

/-- The `Command` value returned by `_execute_agent_step`, together with
the in-place mutation of the claimed step: `steps` is the step list of the plan
after the mutation, `newMessages` / `newObservations` are the `update`
payload (`newObservations = none` models a `Command` with no update),
`goto` is the routing target. -/
structure ExecResult where
  steps : List PlanStep
  newMessages : List HMsg
  newObservations : Option (List String)
  goto : String
deriving DecidableEq, Repr

/-- Models `_execute_agent_step(state, agent, agent_name)` (lines 501-768).
An uncaught exception (a non-context error) is the `.error` case. -/
def execute_agent_step (st : ExecState) (agent : List HMsg → Except String String)
    (agent_name : String) : Except String ExecResult :=
  match firstUnexecuted st.current_plan.steps with
  | none => .ok ⟨st.current_plan.steps, [], none, "research_team"⟩
  | some p =>
    let input := assembleAgentInput st p.2 (st.current_plan.steps.take p.1) agent_name
    match retryLoop agent p.2 input with
    | .error e => .error e
    | .ok response_content =>
      .ok ⟨st.current_plan.steps.set p.1 { p.2 with execution_res := some response_content },
           [⟨response_content, some agent_name, "human"⟩],
           some (st.observations ++ [response_content]),
           "research_team"⟩

/-- Modelled from the spec: an "assistant-tagged" message is one whose
message kind is the assistant/AI kind (`AIMessage`, kind `"ai"`), as the
planner node produces. -/
def isAssistantTagged (m : HMsg) : Bool := m.mtype == "ai"

/-! ## Planner and human-feedback nodes (nodes.py lines 259-397)

The JSON repair/parse pipeline (`repair_json_output` + `json.loads`, from
`src/utils/json_utils.py`) and Pydantic validation (`Plan.model_validate`,
from `src/prompts/planner_model.py`) are code of this repository that is
not among the provided source files; per the spec (§6, "Plan JSON
repair/parse" and §4.4 "validate into a full `Plan`") they are abstracted
as parameters `parse` (best-effort repair then parse, failing like a JSON
decode error) and `validate` (validation of the parsed object into a
`Plan`).  The LLM invocation is external by the spec; its output text is
the `full_response` parameter. -/

/-- Modelled from the spec: the JSON object parsed from the planner
output; the nodes read its `has_enough_context` flag and `locale`. -/
structure ParsedPlan where
  has_enough_context : Bool
  locale : String
deriving DecidableEq, Repr

/-- The `current_plan` state field: raw text while a proposal is pending
review, or a validated `Plan`. -/
inductive PlanVal where
  | text (s : String)
  | plan (p : Plan)
deriving DecidableEq, Repr

/-- The `update` dict of a returned `Command`; an absent key is `none`
(for `messages`, absent and `[]` coincide: the graph appends). -/
structure NodeUpdate where
  messages : List HMsg := []
  current_plan : Option PlanVal := none
  plan_iterations : Option Nat := none
  locale : Option String := none
deriving DecidableEq, Repr

/-- A returned `Command(update=..., goto=...)`. -/
structure NodeCommand where
  update : NodeUpdate := {}
  goto : String
deriving DecidableEq, Repr

/-- Models `planner_node` from the point where the model response text
`full_response` is complete (nodes.py lines 294-338; the earlier lines
assemble the prompt for the external LLM).  The
`plan_iterations >= max_plan_iterations` early return precedes the
invocation and the parse. -/
def planner_node (parse : String → Except Unit ParsedPlan) (validate : ParsedPlan → Plan)
    (plan_iterations max_plan_iterations : Nat) (full_response : String) : NodeCommand :=
  if max_plan_iterations ≤ plan_iterations then ⟨{}, "reporter"⟩
  else
    match parse full_response with
    | .error _ => if 0 < plan_iterations then ⟨{}, "reporter"⟩ else ⟨{}, "__end__"⟩
    | .ok p =>
      if p.has_enough_context then
        ⟨{ messages := [⟨full_response, some ("planner"), "ai"⟩],
           current_plan := some (.plan (validate p)) }, "reporter"⟩
      else
        ⟨{ messages := [⟨full_response, some ("planner"), "ai"⟩],
           current_plan := some (.text full_response) }, "human_feedback"⟩

/-- The slice of state read by `human_feedback_node`: the pending raw plan
text, the auto-accept flag, and the iteration counter. -/
structure HFState where
  current_plan_text : String
  auto_accepted_plan : Bool
  plan_iterations : Nat
deriving DecidableEq, Repr

/-- The accepted-plan continuation of `human_feedback_node`
(nodes.py lines 367-396): repair/parse the stored plan, increment the
iteration count (before the parse, so the parse-failure branch always
sees a positive count), and route on `has_enough_context`. -/
def hfAccepted (parse : String → Except Unit ParsedPlan) (validate : ParsedPlan → Plan)
    (st : HFState) : Except String NodeCommand :=
  let iters := st.plan_iterations + 1
  match parse st.current_plan_text with
  | .error _ => if 0 < iters then .ok ⟨{}, "reporter"⟩ else .ok ⟨{}, "__end__"⟩
  | .ok p =>
    .ok ⟨{ current_plan := some (.plan (validate p)), plan_iterations := some iters,
           locale := some p.locale },
         if p.has_enough_context then ("reporter") else ("research_team")⟩

/-- Models `human_feedback_node` (nodes.py lines 341-396), with the decision
string delivered by `interrupt` as the `feedback` parameter.  The raised
`TypeError` for an unrecognized decision is the `.error` case.  Python
`feedback and str(feedback).upper().startswith(...)` is falsy for the
empty string. -/
def human_feedback_node (parse : String → Except Unit ParsedPlan)
    (validate : ParsedPlan → Plan) (st : HFState) (feedback : String) :
    Except String NodeCommand :=
  if st.auto_accepted_plan then hfAccepted parse validate st
  else if !strIsEmpty feedback && strStartsWith (strUpper feedback) ("[EDIT_PLAN]") then
    .ok ⟨{ messages := [⟨feedback, some ("feedback"), "human"⟩] }, "planner"⟩
  else if !strIsEmpty feedback && strStartsWith (strUpper feedback) ("[ACCEPTED]") then
    hfAccepted parse validate st
  else
    .error ("Interrupt value of " ++ feedback ++ " is not supported.")

/-! ## General lemmas -/

theorem totalTokens_append (l₁ l₂ : List CMsg) :
    totalTokens (l₁ ++ l₂) = totalTokens l₁ + totalTokens l₂ := by
  simp [totalTokens]

theorem fitMsg_cost (rem : Nat) (m : CMsg) :
    estimate_tokens ((fitMsg rem m).2).content = (fitMsg rem m).1 := by
  simp only [fitMsg]
  split <;> rfl

/-- The accumulated count after one filling pass either did not move or
stays within the sub-budget of the pass. -/
theorem addFits_le (ms : List CMsg) (rem cur : Nat) (acc : List CMsg) :
    (addMessagesIfFits rem ms cur acc).1 = cur ∨ (addMessagesIfFits rem ms cur acc).1 ≤ rem := by
  induction ms generalizing cur acc with
  | nil => exact Or.inl rfl
  | cons m ms ih =>
    unfold addMessagesIfFits
    split
    · rcases ih (cur + (fitMsg rem m).1) (acc ++ [(fitMsg rem m).2]) with h | h
      · right
        rw [h]
        omega
      · exact Or.inr h
    · exact Or.inl rfl

/-- The accumulated count equals the total token cost of the accumulated
messages. -/
theorem addFits_total (ms : List CMsg) (rem cur : Nat) (acc : List CMsg)
    (h : totalTokens acc = cur) :
    totalTokens (addMessagesIfFits rem ms cur acc).2 = (addMessagesIfFits rem ms cur acc).1 := by
  induction ms generalizing cur acc with
  | nil => exact h
  | cons m ms ih =>
    unfold addMessagesIfFits
    split
    · apply ih
      rw [totalTokens_append, h]
      simp [totalTokens, fitMsg_cost]
    · exact h

theorem totalTokens_insertStable (k : CMsg → Nat) (a : CMsg) (l : List CMsg) :
    totalTokens (insertStable k a l) = estimate_tokens a.content + totalTokens l := by
  induction l with
  | nil => simp [insertStable, totalTokens]
  | cons b bs ih =>
    unfold insertStable
    split
    · simp [totalTokens]
    · simp only [totalTokens, List.map_cons, List.sum_cons] at ih ⊢
      omega

theorem totalTokens_stableSortAux (k : CMsg → Nat) (l acc : List CMsg) :
    totalTokens (stableSortAux k l acc) = totalTokens l + totalTokens acc := by
  induction l generalizing acc with
  | nil => simp [stableSortAux, totalTokens]
  | cons a as ih =>
    unfold stableSortAux
    rw [ih, totalTokens_insertStable]
    simp only [totalTokens, List.map_cons, List.sum_cons]
    omega

theorem totalTokens_stableSortByKey (k : CMsg → Nat) (l : List CMsg) :
    totalTokens (stableSortByKey k l) = totalTokens l := by
  unfold stableSortByKey
  rw [totalTokens_stableSortAux]
  simp [totalTokens]

/-- The three chained filling passes stay within the target sub-budget and
accumulate exactly their own token count. -/
theorem truncateCore_bound (messages : List CMsg) (t : Nat) :
    (truncateCore messages t).1 ≤ t
      ∧ totalTokens (truncateCore messages t).2 = (truncateCore messages t).1 := by
  simp only [truncateCore]
  set cls := classifyMsgs messages with hcls
  set r1 := addMessagesIfFits t cls.1 0 [] with hr1
  set r2 := addMessagesIfFits (t - r1.1) cls.2.1 r1.1 r1.2 with hr2
  have h1 : r1.1 ≤ t := by
    rcases addFits_le cls.1 t 0 [] with h | h
    · rw [hr1, h]; omega
    · rw [hr1]; exact h
  have t1 : totalTokens r1.2 = r1.1 := by
    rw [hr1]; exact addFits_total _ _ _ _ rfl
  have h2 : r2.1 ≤ t := by
    rcases addFits_le cls.2.1 (t - r1.1) r1.1 r1.2 with h | h
    · rw [hr2, h]; exact h1
    · rw [hr2]; omega
  have t2 : totalTokens r2.2 = r2.1 := by
    rw [hr2]; exact addFits_total _ _ _ _ t1
  constructor
  · rcases addFits_le cls.2.2.reverse (t - r2.1) r2.1 r2.2 with h | h
    · rw [h]; exact h2
    · omega
  · exact addFits_total _ _ _ _ t2

theorem mem_insertStable (k : CMsg → Nat) (a x : CMsg) (l : List CMsg)
    (h : x ∈ insertStable k a l) : x = a ∨ x ∈ l := by
  induction l with
  | nil =>
    simp [insertStable] at h
    exact Or.inl h
  | cons b bs ih =>
    unfold insertStable at h
    split at h
    · simp only [List.mem_cons] at h
      rcases h with h | h | h
      · exact Or.inl h
      · exact Or.inr (by simp [h])
      · exact Or.inr (by simp [h])
    · simp only [List.mem_cons] at h
      rcases h with h | h
      · exact Or.inr (by simp [h])
      · rcases ih h with h' | h'
        · exact Or.inl h'
        · exact Or.inr (by simp [h'])

theorem pairwise_insertStable (k : CMsg → Nat) (a : CMsg) (l : List CMsg)
    (h : l.Pairwise (fun u v => k u ≤ k v)) :
    (insertStable k a l).Pairwise (fun u v => k u ≤ k v) := by
  induction l with
  | nil => simp [insertStable]
  | cons b bs ih =>
    rcases List.pairwise_cons.mp h with ⟨hb, hbs⟩
    unfold insertStable
    by_cases hab : k a < k b
    · rw [if_pos hab]
      refine List.pairwise_cons.mpr ⟨?_, h⟩
      intro x hx
      simp only [List.mem_cons] at hx
      rcases hx with hx | hx
      · subst hx
        omega
      · have := hb x hx
        omega
    · rw [if_neg hab]
      refine List.pairwise_cons.mpr ⟨?_, ih hbs⟩
      intro x hx
      rcases mem_insertStable k a x bs hx with hx' | hx'
      · subst hx'
        omega
      · exact hb x hx'

theorem pairwise_stableSortAux (k : CMsg → Nat) (l acc : List CMsg)
    (h : acc.Pairwise (fun u v => k u ≤ k v)) :
    (stableSortAux k l acc).Pairwise (fun u v => k u ≤ k v) := by
  induction l generalizing acc with
  | nil => exact h
  | cons a as ih =>
    unfold stableSortAux
    exact ih _ (pairwise_insertStable k a acc h)

/-- Characterization of the step-claiming loop: the returned index points
at its step, the step is unexecuted (falsy result), and everything before
it is executed. -/
theorem firstUnexecuted_spec (steps : List PlanStep) (i : Nat) (cur : PlanStep)
    (h : firstUnexecuted steps = some (i, cur)) :
    steps.get? i = some cur ∧ resFalsy cur.execution_res = true
      ∧ ∀ j, j < i → ∃ s, steps.get? j = some s ∧ resFalsy s.execution_res = false := by
  induction steps generalizing i with
  | nil => simp [firstUnexecuted] at h
  | cons s rest ih =>
    unfold firstUnexecuted at h
    split at h
    · rename_i hs
      simp at h
      obtain ⟨hi, hc⟩ := h
      subst hi
      subst hc
      exact ⟨rfl, hs, by omega⟩
    · rename_i hs
      cases hfu : firstUnexecuted rest with
      | none => rw [hfu] at h; simp at h
      | some p =>
        rw [hfu] at h
        simp at h
        obtain ⟨hi, hc⟩ := h
        obtain ⟨hg, hf, hj⟩ := ih p.1 (by rw [hfu, ← hc])
        subst hi
        constructor
        · simpa using hg
        · refine ⟨hf, ?_⟩
          intro j hjlt
          cases j with
          | zero =>
            exact ⟨s, rfl, by simpa using hs⟩
          | succ j' =>
            obtain ⟨s', hs', hf'⟩ := hj j' (by omega)
            exact ⟨s', by simpa using hs', hf'⟩

/-- If every agent invocation raises a context-overflow error, the retry
loop terminates with the synthesized placeholder. -/
theorem retryGo_allfail (agent : List HMsg → Except String String) (step : PlanStep)
    (h : ∀ inp, ∃ e, agent inp = .error e ∧ isContextError e = true) :
    ∀ n inp rc, rc + n = 3 → 0 < n →
      retryGo agent step n inp rc = .ok (mockContent step.title) := by
  intro n
  induction n with
  | zero => omega
  | succ k ih =>
    intro inp rc hrc _
    obtain ⟨e, he, hce⟩ := h inp
    unfold retryGo
    rw [if_pos (by omega : rc < 3), he]
    simp only [hce, if_true]
    by_cases hk : rc + 1 < 3
    · rw [if_pos hk]
      exact ih _ _ (by omega) (by omega)
    · rw [if_neg hk]
      obtain ⟨e', he', _⟩ := h [minimalMsg step]
      rw [he']

theorem strLen_append (s t : String) : strLen (s ++ t) = strLen s + strLen t := by
  simp [strLen]

theorem joinSep_len_ge (sep : String) (x : String) (xs : List String) :
    strLen x ≤ strLen (joinSep sep (x :: xs)) := by
  cases xs with
  | nil => simp [joinSep]
  | cons y rest =>
    simp only [joinSep, strLen_append]
    omega

theorem strIsEmpty_false_of_pos (s : String) (h : 0 < strLen s) : strIsEmpty s = false := by
  unfold strIsEmpty
  cases hd : s.data with
  | nil =>
    rw [strLen, hd] at h
    simp at h
  | cons c cs => rfl

theorem obsJoined_ne_empty (recent : List String) (h : recent ≠ []) :
    strIsEmpty (obsJoined recent) = false := by
  cases recent with
  | nil => exact absurd rfl h
  | cons r rs =>
    apply strIsEmpty_false_of_pos
    unfold obsJoined
    rw [List.enum_cons]
    simp only [List.map_cons]
    have hge := joinSep_len_ge ("\n\n") ("觀察 " ++ Nat.repr (0 + 1) ++ ": " ++ r)
      ((rs.enumFrom 1).map (fun p => "觀察 " ++ Nat.repr (p.1 + 1) ++ ": " ++ p.2))
    have hx : 0 < strLen ("觀察 " ++ Nat.repr (0 + 1) ++ ": " ++ r) := by
      rw [strLen_append, strLen_append, strLen_append]
      have : strLen ("觀察 ") = 3 := by decide
      omega
    omega

theorem filter_stateMsgPart_sm (l : List HMsg) :
    (l.map stateMsgPart).filter (fun m => m.mtype == "state_message") = l.map stateMsgPart := by
  induction l with
  | nil => rfl
  | cons a as ih =>
    simp only [List.map_cons, List.filter_cons]
    rw [ih]
    rfl

theorem filter_stateMsgPart_obs (l : List HMsg) :
    (l.map stateMsgPart).filter (fun m => m.mtype == "observations") = [] := by
  induction l with
  | nil => rfl
  | cons a as ih =>
    simp only [List.map_cons, List.filter_cons]
    rw [ih]
    rfl

/-! ## Concrete instances used by the witnesses and counterexamples -/

/-- A string of `n` letters `a`. -/
def aStr (n : Nat) : String := String.mk (List.replicate n 'a')

def c2Msgs : List CMsg := [⟨"aaaa", "user", "", ""⟩]

def c3M1 : CMsg := ⟨"title" ++ aStr 43, "user", "", ""⟩
def c3M2 : CMsg := ⟨"titleaa", "user", "", ""⟩
def c3M3 : CMsg := ⟨aStr 40, "user", "", ""⟩
def c3Msgs : List CMsg := [c3M1, c3M2, c3M3]
def c3M1T : CMsg := ⟨"title" ++ aStr 23 ++ truncMarker, "user", "", ""⟩

def c4Step : PlanStep := ⟨"t4", "d4", none⟩
def c4St : ExecState := ⟨[], [], ⟨"p4", "th4", "en-US", false, [c4Step]⟩, "en-US", []⟩
def c4Agent : List HMsg → Except String String := fun _ => .error ("context_length_exceeded")

def c5Parse : String → Except Unit ParsedPlan := fun _ => .error ()
def c5Validate : ParsedPlan → Plan := fun _ => ⟨"p5", "th5", "en-US", false, []⟩
def c5St : HFState := ⟨"raw plan", false, 0⟩

def c6Parsed : ParsedPlan := ⟨true, "en-US"⟩
def c6Parse : String → Except Unit ParsedPlan := fun _ => .ok c6Parsed
def c6Validate : ParsedPlan → Plan := fun _ => ⟨"p6", "th6", "en-US", true, []⟩

def c7St : ExecState := ⟨[], [], ⟨"p7", "th7", "en-US", false, [⟨"t7", "d7", some ("done7")⟩]⟩,
  "en-US", []⟩
def c7Agent : List HMsg → Except String String := fun _ => .error ("boom")

def c9Step : PlanStep := ⟨"t9", "d9", none⟩
def c9St : ExecState := ⟨[], [], ⟨"p9", "th9", "en-US", false, [c9Step]⟩, "en-US", []⟩
def c9Agent : List HMsg → Except String String := fun _ => .ok ("R9")

/-! ## Claim theorems -/

/-- C1: Budget respect — for every message list and every budget, the list
returned by `truncate_context` has total estimated token cost (per
`estimate_tokens`) not exceeding the budget.  This is unconditional, so in
particular it holds for every budget at least the estimated cost of the
smallest single message, as the claim states; the single-message
truncation inside `fitMsg` is re-estimated before admission, so it never
breaks the bound. -/
theorem truncate_budget_respect (messages : List CMsg) (budget : Nat) :
    totalTokens (truncate_context messages budget) ≤ budget := by
  unfold truncate_context
  by_cases h1 : messages.isEmpty
  · rw [if_pos h1]
    have : messages = [] := by
      cases messages with
      | nil => rfl
      | cons a as => simp at h1
    rw [this]
    simp [totalTokens]
  · rw [if_neg h1]
    by_cases h2 : totalTokens messages ≤ budget
    · rw [if_pos h2]
      exact h2
    · rw [if_neg h2]
      rw [totalTokens_stableSortByKey]
      obtain ⟨hle, heq⟩ := truncateCore_bound messages (budget * 7 / 10)
      rw [heq]
      have h7 : budget * 7 ≤ budget * 10 := Nat.mul_le_mul_left budget (by omega)
      have h10 : budget * 7 / 10 ≤ budget * 10 / 10 := Nat.div_le_div_right h7
      rw [Nat.mul_div_cancel budget (by omega)] at h10
      omega

/-- C2: Idempotence of truncation — when the total estimated cost of the
messages already fits the budget, `truncate_context` returns the list
unchanged, and hence running it twice equals running it once on such
input. -/
theorem truncate_idempotent (messages : List CMsg) (budget : Nat)
    (h : totalTokens messages ≤ budget) :
    truncate_context messages budget = messages
      ∧ truncate_context (truncate_context messages budget) budget
          = truncate_context messages budget := by
  have h1 : truncate_context messages budget = messages := by
    unfold truncate_context
    by_cases he : messages.isEmpty
    · rw [if_pos he]
    · rw [if_neg he, if_pos h]
  exact ⟨h1, by rw [h1]; exact h1⟩

theorem truncate_idempotent_witness :
    totalTokens c2Msgs ≤ 5 ∧ truncate_context c2Msgs 5 = c2Msgs :=
  ⟨by decide, (truncate_idempotent c2Msgs 5 (by decide)).1⟩

/-- C3 counterexample: the claim predicts that accepted messages are
reassembled in the original relative order *including* messages whose
content was individually truncated.  On this input the message at input
position 0 (`c3M1`) is individually truncated to `c3M1T`, the message at
input position 1 (`c3M2`) is accepted unchanged, yet the code returns
`[c3M2, c3M1T]` — the truncated copy of the *earlier* message comes last,
because the reordering key `messages.index(x) if x in messages else
len(messages)` no longer finds the truncated copy in the input. -/
theorem truncate_order_counterexample :
    truncate_context c3Msgs 20 = [c3M2, c3M1T]
      ∧ truncate_context c3Msgs 20 ≠ [c3M1T, c3M2]
      ∧ c3M1T.content = strTake c3M1.content 28 ++ truncMarker
      ∧ c3M1T ∉ c3Msgs := by
  refine ⟨by decide, by decide, by decide, by decide⟩

/-- C3 (amended): on the truncation path the returned list is sorted
(non-strictly) by the key assigning to each message its first index in the
input when it still occurs there and the input length otherwise.  Hence
accepted messages that are still equal to input messages appear in their
original relative order, while messages whose content was individually
truncated are placed after all of them, not at their original
positions. -/
theorem truncate_reassembly_order (messages : List CMsg) (budget : Nat)
    (h1 : messages.isEmpty = false) (h2 : budget < totalTokens messages) :
    (truncate_context messages budget).Pairwise
      (fun u v => msgSortKey messages u ≤ msgSortKey messages v) := by
  unfold truncate_context
  rw [if_neg (by simp [h1]), if_neg (by omega)]
  exact pairwise_stableSortAux _ _ _ List.Pairwise.nil

theorem truncate_reassembly_order_witness :
    c3Msgs.isEmpty = false ∧ 20 < totalTokens c3Msgs
      ∧ (truncate_context c3Msgs 20).Pairwise
          (fun u v => msgSortKey c3Msgs u ≤ msgSortKey c3Msgs v) :=
  ⟨rfl, by decide, truncate_reassembly_order c3Msgs 20 rfl (by decide)⟩

/-- C4: Degrade-not-crash — if every agent invocation raises a
context-length-exceeded failure (the original attempt, the two shrunken
retries and the final minimal-content attempt all fail), the executor
returns, instead of propagating an exception, a result that records the
synthesized placeholder as the `execution_res` of the claimed step, appends it
to `observations` and to the messages, and routes back to the
research-team dispatcher. -/
theorem exec_degrade_not_crash (st : ExecState) (agent : List HMsg → Except String String)
    (agent_name : String) (i : Nat) (cur : PlanStep)
    (hstep : firstUnexecuted st.current_plan.steps = some (i, cur))
    (hfail : ∀ inp, ∃ e, agent inp = .error e ∧ isContextError e = true) :
    execute_agent_step st agent agent_name =
      .ok ⟨st.current_plan.steps.set i { cur with execution_res := some (mockContent cur.title) },
           [⟨mockContent cur.title, some agent_name, "human"⟩],
           some (st.observations ++ [mockContent cur.title]),
           "research_team"⟩ := by
  unfold execute_agent_step
  rw [hstep]
  simp only [retryLoop]
  rw [retryGo_allfail agent cur hfail 3 _ 0 rfl (by omega)]

theorem exec_degrade_not_crash_witness :
    firstUnexecuted c4St.current_plan.steps = some (0, c4Step)
      ∧ execute_agent_step c4St c4Agent ("coder") =
          .ok ⟨[⟨"t4", "d4", some (mockContent ("t4"))⟩],
               [⟨mockContent ("t4"), some ("coder"), "human"⟩],
               some [mockContent ("t4")],
               "research_team"⟩ :=
  ⟨rfl, exec_degrade_not_crash c4St c4Agent ("coder") 0 c4Step rfl
      (fun _ => ⟨"context_length_exceeded", rfl, by decide⟩)⟩

/-- C7: Single claim in declaration order — if no step has a falsy
(`None`/empty) `execution_res`, the executor mutates nothing and routes
back to the dispatcher; otherwise the index returned by the claiming scan
points at the first step with falsy result (everything before it has a
non-empty result), and any normally-returned result differs from the
input steps only by setting the `execution_res` of that one step — at most one
step is claimed per invocation, and never a step with a non-empty
result. -/
theorem exec_single_claim (st : ExecState) (agent : List HMsg → Except String String)
    (agent_name : String) :
    (firstUnexecuted st.current_plan.steps = none →
       execute_agent_step st agent agent_name =
         .ok ⟨st.current_plan.steps, [], none, "research_team"⟩)
      ∧ ∀ i cur, firstUnexecuted st.current_plan.steps = some (i, cur) →
          (st.current_plan.steps.get? i = some cur
            ∧ resFalsy cur.execution_res = true
            ∧ ∀ j, j < i → ∃ s, st.current_plan.steps.get? j = some s
                ∧ resFalsy s.execution_res = false)
          ∧ ∀ res, execute_agent_step st agent agent_name = .ok res →
              ∃ r, res.steps = st.current_plan.steps.set i { cur with execution_res := some r }
                ∧ res.goto = "research_team" := by
  constructor
  · intro h
    unfold execute_agent_step
    rw [h]
  · intro i cur h
    refine ⟨firstUnexecuted_spec _ _ _ h, ?_⟩
    intro res hres
    unfold execute_agent_step at hres
    rw [h] at hres
    simp only at hres
    cases hrl : retryLoop agent cur
        (assembleAgentInput st cur (st.current_plan.steps.take i) agent_name) with
    | error e =>
      rw [hrl] at hres
      simp at hres
    | ok r =>
      rw [hrl] at hres
      simp only [Except.ok.injEq] at hres
      exact ⟨r, by rw [← hres], by rw [← hres]⟩

theorem exec_single_claim_witness :
    firstUnexecuted c7St.current_plan.steps = none
      ∧ execute_agent_step c7St c7Agent ("coder") =
          .ok ⟨c7St.current_plan.steps, [], none, "research_team"⟩ :=
  ⟨by decide, (exec_single_claim c7St c7Agent ("coder")).1 (by decide)⟩

/-- C9 counterexample: the claim says the executor appends an
*assistant-tagged* message.  On this concrete run the appended message is
a `HumanMessage` (kind `"human"`) carrying the agent name — it is not
assistant-tagged (`AIMessage`, kind `"ai"`), refuting the claim as
stated. -/
theorem exec_success_counterexample :
    execute_agent_step c9St c9Agent ("coder") =
      .ok ⟨[⟨"t9", "d9", some ("R9")⟩],
           [⟨"R9", some ("coder"), "human"⟩],
           some ["R9"],
           "research_team"⟩
      ∧ isAssistantTagged ⟨"R9", some ("coder"), "human"⟩ = false := by
  refine ⟨by rfl, by decide⟩

/-- C9 (amended): Step-success postcondition — whenever the agent
invocation succeeds with final response text `r`, the executor writes `r`
into the `execution_res` of the claimed step, appends the same `r` to
`observations` (which thus grows by exactly one), appends a *human-role*
message tagged with the name of the executing agent carrying `r`, and routes
back to the research-team dispatcher. -/
theorem exec_success_postcondition (st : ExecState)
    (agent : List HMsg → Except String String) (agent_name : String) (i : Nat)
    (cur : PlanStep) (r : String)
    (hstep : firstUnexecuted st.current_plan.steps = some (i, cur))
    (hok : agent (assembleAgentInput st cur (st.current_plan.steps.take i) agent_name)
        = .ok r) :
    execute_agent_step st agent agent_name =
      .ok ⟨st.current_plan.steps.set i { cur with execution_res := some r },
           [⟨r, some agent_name, "human"⟩],
           some (st.observations ++ [r]),
           "research_team"⟩ := by
  unfold execute_agent_step
  rw [hstep]
  simp only [retryLoop]
  unfold retryGo
  rw [if_pos (by omega : (0:Nat) < 3), hok]

theorem exec_success_postcondition_witness :
    firstUnexecuted c9St.current_plan.steps = some (0, c9Step)
      ∧ execute_agent_step c9St c9Agent ("coder") =
          .ok ⟨[⟨"t9", "d9", some ("R9")⟩],
               [⟨"R9", some ("coder"), "human"⟩],
               some ["R9"],
               "research_team"⟩ :=
  ⟨rfl, exec_success_postcondition c9St c9Agent ("coder") 0 c9Step ("R9") rfl rfl⟩

/-- C5: Human-feedback decision handling — with auto-accept off, a resume
decision starting (case-insensitively) with `[EDIT_PLAN]` routes to the
planner with the feedback appended as a user-tagged message named
`feedback`; one starting with `[ACCEPTED]` proceeds into the accepted-plan
continuation; every other value (including the empty string, which is
falsy) raises the fatal `TypeError` and performs no state transition. -/
theorem human_feedback_routing (parse : String → Except Unit ParsedPlan)
    (validate : ParsedPlan → Plan) (st : HFState) (feedback : String)
    (hauto : st.auto_accepted_plan = false) :
    ((!strIsEmpty feedback && strStartsWith (strUpper feedback) ("[EDIT_PLAN]")) = true →
       human_feedback_node parse validate st feedback =
         .ok ⟨{ messages := [⟨feedback, some ("feedback"), "human"⟩] }, "planner"⟩)
      ∧ ((!strIsEmpty feedback && strStartsWith (strUpper feedback) ("[EDIT_PLAN]")) = false →
          (!strIsEmpty feedback && strStartsWith (strUpper feedback) ("[ACCEPTED]")) = true →
            human_feedback_node parse validate st feedback = hfAccepted parse validate st)
      ∧ ((!strIsEmpty feedback && strStartsWith (strUpper feedback) ("[EDIT_PLAN]")) = false →
          (!strIsEmpty feedback && strStartsWith (strUpper feedback) ("[ACCEPTED]")) = false →
            human_feedback_node parse validate st feedback =
              .error ("Interrupt value of " ++ feedback ++ " is not supported.")) := by
  unfold human_feedback_node
  rw [if_neg (by simp [hauto])]
  refine ⟨?_, ?_, ?_⟩
  · intro h
    rw [if_pos h]
  · intro h1 h2
    rw [if_neg (by simp [h1]), if_pos h2]
  · intro h1 h2
    rw [if_neg (by simp [h1]), if_neg (by simp [h2])]

theorem human_feedback_routing_witness :
    c5St.auto_accepted_plan = false
      ∧ human_feedback_node c5Parse c5Validate c5St ("[EDIT_PLAN] shorten scope") =
          .ok ⟨{ messages := [⟨"[EDIT_PLAN] shorten scope", some ("feedback"), "human"⟩] },
               "planner"⟩
      ∧ human_feedback_node c5Parse c5Validate c5St ("banana") =
          .error ("Interrupt value of banana is not supported.") :=
  ⟨rfl,
   (human_feedback_routing c5Parse c5Validate c5St ("[EDIT_PLAN] shorten scope") rfl).1
     (by decide),
   (human_feedback_routing c5Parse c5Validate c5St ("banana") rfl).2.2 (by decide) (by decide)⟩

/-- C6: First-pass sufficient-context plan — when the parse of the planner
output succeeds with `has_enough_context` true on the first pass
(`plan_iterations = 0`, below the configured maximum), the node goes
directly to the reporter with the validated `Plan` stored as
`current_plan`; the returned update carries no `plan_iterations` key, so
the count remains 0 (it is incremented only in `human_feedback_node`). -/
theorem planner_first_pass (parse : String → Except Unit ParsedPlan)
    (validate : ParsedPlan → Plan) (mpi : Nat) (full_response : String) (p : ParsedPlan)
    (hmpi : 0 < mpi) (hp : parse full_response = .ok p)
    (hctx : p.has_enough_context = true) :
    planner_node parse validate 0 mpi full_response =
      ⟨{ messages := [⟨full_response, some ("planner"), "ai"⟩],
         current_plan := some (.plan (validate p)),
         plan_iterations := none, locale := none }, "reporter"⟩ := by
  unfold planner_node
  rw [if_neg (by omega : ¬ mpi ≤ 0), hp]
  simp only [hctx, if_true]

theorem planner_first_pass_witness :
    0 < 1 ∧ c6Parse ("resp") = .ok c6Parsed ∧ c6Parsed.has_enough_context = true
      ∧ planner_node c6Parse c6Validate 0 1 ("resp") =
          ⟨{ messages := [⟨"resp", some ("planner"), "ai"⟩],
             current_plan := some (.plan (c6Validate c6Parsed)),
             plan_iterations := none, locale := none }, "reporter"⟩ :=
  ⟨by omega, rfl, rfl,
   planner_first_pass c6Parse c6Validate 1 ("resp") c6Parsed (by omega) rfl rfl⟩

/-- C8: Token estimator contract — `estimate_tokens` is a pure total
function into `Nat` (hence deterministic, side-effect free and
non-negative); empty text yields 0; code-like text (a code fence or the
keywords `def ` / `class `) is rated at 1 token per 3 characters,
otherwise CJK-dominant text (more CJK than non-CJK characters) at
1 token per 1.5 characters (`int(len/1.5) = 2*len/3`), and all other text
at 1 token per 4 characters. -/
theorem estimate_tokens_contract :
    estimate_tokens ("") = 0
      ∧ ∀ t : String, strIsEmpty t = false →
          (textHasCode t = true → estimate_tokens t = strLen t / 3)
            ∧ (textHasCode t = false → textCJKDominant t = true →
                estimate_tokens t = 2 * strLen t / 3)
            ∧ (textHasCode t = false → textCJKDominant t = false →
                estimate_tokens t = strLen t / 4) := by
  refine ⟨rfl, ?_⟩
  intro t ht
  refine ⟨?_, ?_, ?_⟩
  · intro hc
    unfold estimate_tokens
    rw [if_neg (by simp [ht]), if_pos hc]
  · intro hc hd
    unfold estimate_tokens
    rw [if_neg (by simp [ht]), if_neg (by simp [hc]), if_pos hd]
  · intro hc hd
    unfold estimate_tokens
    rw [if_neg (by simp [ht]), if_neg (by simp [hc]), if_neg (by simp [hd])]

theorem estimate_tokens_contract_witness :
    strIsEmpty ("def x") = false ∧ estimate_tokens ("def x") = 1
      ∧ strIsEmpty ("中文字串") = false ∧ estimate_tokens ("中文字串") = 2
      ∧ strIsEmpty ("abcdefgh") = false ∧ estimate_tokens ("abcdefgh") = 2 :=
  ⟨rfl, (estimate_tokens_contract.2 ("def x") rfl).1 (by decide),
   rfl, (estimate_tokens_contract.2 ("中文字串") rfl).2.1 (by decide) (by decide),
   rfl, (estimate_tokens_contract.2 ("abcdefgh") rfl).2.2 (by decide) (by decide)⟩

/-- C10: Implicit bound on step-execution context assembly — the context
parts assembled by the executor before truncation contain, as
state-message parts, exactly the conversions of the at most 5 most recent
state messages (`state_messages[-5:]`), and, as observation part, one
message built only from the at most 3 most recent observations
(`observations[-3:]`); earlier messages and observations never enter the
assembled context. -/
theorem build_context_parts_bounded (st : ExecState) (cur : PlanStep) (info : String) :
    (buildContextParts st cur info).filter (fun m => m.mtype == "state_message")
        = (st.messages.drop (st.messages.length - 5)).map stateMsgPart
      ∧ ((buildContextParts st cur info).filter (fun m => m.mtype == "state_message")).length ≤ 5
      ∧ (buildContextParts st cur info).filter (fun m => m.mtype == "observations")
          = (if st.observations.isEmpty then []
             else [⟨obsJoined (st.observations.drop (st.observations.length - 3)), "system", "",
                    "observations"⟩]) := by
  have hA : ∀ q : CMsg → Bool, q ⟨info, "system", "", "completed_steps"⟩ = false →
      (if strIsEmpty info then ([] : List CMsg)
       else [⟨info, "system", "", "completed_steps"⟩]).filter q = [] := by
    intro q hq
    split
    · rfl
    · simp [List.filter, hq]
  have hpos : st.observations.isEmpty = false → 0 < st.observations.length := by
    intro ho
    cases hobs : st.observations with
    | nil => rw [hobs] at ho; simp at ho
    | cons a as => simp
  have h1 : (buildContextParts st cur info).filter (fun m => m.mtype == "state_message")
      = (st.messages.drop (st.messages.length - 5)).map stateMsgPart := by
    unfold buildContextParts
    rw [List.filter_append, List.filter_append, List.filter_append]
    rw [hA _ rfl, filter_stateMsgPart_sm]
    have hB : (if st.observations.isEmpty then ([] : List CMsg)
        else if strIsEmpty (obsJoined (st.observations.drop (st.observations.length - 3)))
          then []
        else [⟨obsJoined (st.observations.drop (st.observations.length - 3)), "system", "",
              "observations"⟩]).filter (fun m => m.mtype == "state_message") = [] := by
      split
      · rfl
      · split <;> rfl
    rw [hB]
    simp
  refine ⟨h1, ?_, ?_⟩
  · rw [h1]
    simp only [List.length_map, List.length_drop]
    omega
  · unfold buildContextParts
    rw [List.filter_append, List.filter_append, List.filter_append]
    rw [hA _ rfl, filter_stateMsgPart_obs]
    have hB : (if st.observations.isEmpty then ([] : List CMsg)
        else if strIsEmpty (obsJoined (st.observations.drop (st.observations.length - 3)))
          then []
        else [⟨obsJoined (st.observations.drop (st.observations.length - 3)), "system", "",
              "observations"⟩]).filter (fun m => m.mtype == "observations")
        = (if st.observations.isEmpty then []
           else [⟨obsJoined (st.observations.drop (st.observations.length - 3)), "system", "",
                  "observations"⟩]) := by
      by_cases ho : st.observations.isEmpty
      · rw [if_pos ho, if_pos ho]
        rfl
      · have ho' : st.observations.isEmpty = false := by
          cases hx : st.observations.isEmpty
          · rfl
          · exact absurd hx ho
        have hnil : st.observations.drop (st.observations.length - 3) ≠ [] := by
          intro hd
          have hlen : (st.observations.drop (st.observations.length - 3)).length = 0 := by
            rw [hd]
            rfl
          rw [List.length_drop] at hlen
          have := hpos ho'
          omega
        have hne := obsJoined_ne_empty _ hnil
        rw [if_neg ho, if_neg ho, if_neg (by simp [hne])]
        rfl
    rw [hB]
    simp
